import Mathlib

/-!
Verification of the Modulblok Inspection Planning engine.

Shallow embedding of the core planning engine (`planner_engine.py`,
`config.py`, `utils.py`): string normalization and order matching,
nearest-neighbour tour building, inspector assignment with the
territorial restriction, daily scheduling with working-day search,
renewal selection, and manual reassignment.

Modelling conventions:
* pandas DataFrames become Lean lists of structures carrying exactly the
  columns the engine reads or writes;
* Python floats for hours, kilometres and timestamps become `ℚ`;
* calendar dates become `ℕ` (days since 1970-01-01, the Unix epoch), so
  `weekday n = (n + 3) % 7` matches Python `datetime.weekday()`
  (Monday = 0); `daysFromCivil` converts a calendar date to this count;
* `datetime.now()` becomes an explicit rational parameter (whole days
  plus a fractional time of day);
* the geopy geodesic metric and `random.choice` are external effects:
  they are passed in as function parameters (`dist`, `pick`), exactly as
  the spec treats geocoding as an external collaborator;
* a pandas cell that may hold a non-string (NaN) is `Option String`, and
  an unparseable reference date (`pd.to_datetime(..., errors="coerce")`
  giving NaT) is `none` in an `Option ℚ` cell.
-/

/-! ## Configuration (`config.py`) -/

/-- `PAOLO_REGIONS` from `config.py`: the restricted inspector's fixed
allow-list. -/
def PAOLO_REGIONS : List String :=
  ["Lombardia", "Piemonte", "Liguria", "Valle d\x27Aosta"]

/-- `NATIONAL_INSPECTORS` from `config.py`. -/
def NATIONAL_INSPECTORS : List String := ["Adrian", "Salvatore", "Mattia"]

/-- `WORK_PARAMS["max_hours_per_day"]`. -/
def maxHoursPerDay : ℚ := 8

/-- `WORK_PARAMS["max_hours_friday"]` (6.5 hours). -/
def maxHoursFriday : ℚ := 13 / 2

/-- `WORK_PARAMS["buffer_hours_per_visit"]` (0.5 hours). -/
def bufferHoursPerVisit : ℚ := 1 / 2

/-- `WORK_PARAMS["average_speed_kmh"]`. -/
def averageSpeedKmh : ℚ := 70

/-- `WORK_PARAMS["renewal_alert_days"]`. -/
def renewalAlertDays : ℕ := 90

/-- Days since 1970-01-01 for a (proleptic Gregorian) calendar date with
`y ≥ 1970` (Hinnant's civil-from-days algorithm, specialized to
nonnegative years; all divisions are floor divisions on `ℕ`). -/
def daysFromCivil (y m d : Nat) : Nat :=
  let y' := if m ≤ 2 then y - 1 else y
  let era := y' / 400
  let yoe := y' - era * 400
  let mp := (m + 9) % 12
  let doy := (153 * mp + 2) / 5 + d - 1
  let doe := yoe * 365 + yoe / 4 - yoe / 100 + doy
  era * 146097 + doe - 719468

/-- `ITALIAN_HOLIDAYS` from `config.py` (dates only; the engine compares
dates, never the holiday names). -/
def italianHolidays : List Nat :=
  [daysFromCivil 2025 1 1, daysFromCivil 2025 1 6, daysFromCivil 2025 4 21,
   daysFromCivil 2025 4 25, daysFromCivil 2025 5 1, daysFromCivil 2025 6 2,
   daysFromCivil 2025 8 15, daysFromCivil 2025 11 1, daysFromCivil 2025 12 8,
   daysFromCivil 2025 12 25, daysFromCivil 2025 12 26,
   daysFromCivil 2026 1 1, daysFromCivil 2026 1 6, daysFromCivil 2026 4 6,
   daysFromCivil 2026 4 25, daysFromCivil 2026 5 1, daysFromCivil 2026 6 2,
   daysFromCivil 2026 8 15, daysFromCivil 2026 11 1, daysFromCivil 2026 12 8,
   daysFromCivil 2026 12 25, daysFromCivil 2026 12 26]

/-- `validate_inspector_assignment` from `config.py`: Paolo outside his
allow-list is rejected; any other inspector inside Paolo's regions gets a
warning message but is accepted; everything else is accepted silently. -/
def validateInspectorAssignment (inspector region : String) : Bool × String :=
  if inspector = "Paolo" ∧ region ∉ PAOLO_REGIONS then
    (false, "Paolo può lavorare solo in: Lombardia, Piemonte, Liguria, Valle d\x27Aosta")
  else if inspector ≠ "Paolo" ∧ region ∈ PAOLO_REGIONS then
    (true, "⚠️ Attenzione: " ++ region ++ " è zona di competenza di Paolo")
  else
    (true, "")

/-- `get_available_inspectors` from `config.py`. -/
def getAvailableInspectors (region : String) : List String :=
  if region ∈ PAOLO_REGIONS then ["Paolo"] else NATIONAL_INSPECTORS

/-! ## String normalization (`utils.normalize_string`) -/

/-- The ASCII whitespace characters matched by Python `str.strip` /
`re \s` (space, tab, newline, carriage return, vertical tab, form feed). -/
def isPySpace (c : Char) : Bool :=
  c = ' ' ∨ c = '\t' ∨ c = '\n' ∨ c = '\r' ∨ c = Char.ofNat 11 ∨ c = Char.ofNat 12

/-- Python `str.strip()`: drop leading and trailing whitespace. -/
def stripWS (l : List Char) : List Char :=
  ((l.dropWhile isPySpace).reverse.dropWhile isPySpace).reverse

/-- Whether a list of characters starts with a whitespace character. -/
def headIsSpace : List Char → Bool
  | [] => false
  | c :: _ => isPySpace c

/-- Python `re.sub(r"\s+", " ", ·)`: collapse every run of whitespace to a
single space (a whitespace character followed by more whitespace is
dropped; the last character of each run becomes a single space). -/
def collapseWS : List Char → List Char
  | [] => []
  | c :: rest =>
    if isPySpace c && headIsSpace rest then collapseWS rest
    else (if isPySpace c then ' ' else c) :: collapseWS rest

/-- `normalize_string` from `utils.py`: a non-string cell (`none`) maps to
the empty string; a string is uppercased, stripped, and
whitespace-collapsed (ASCII uppercase model of Python `str.upper`). -/
def normalizeString : Option String → String
  | none => ""
  | some s => String.mk (collapseWS (stripWS (s.data.map Char.toUpper)))

/-! ## Travel and calendar utilities (`utils.py`) -/

/-- `calculate_travel_time` from `utils.py` at the default average speed. -/
def calculateTravelTime (distanceKm : ℚ) : ℚ :=
  if averageSpeedKmh ≤ 0 then 0 else distanceKm / averageSpeedKmh

/-- Python `date.weekday()`: Monday = 0 … Sunday = 6 (day 0 of the epoch,
1970-01-01, was a Thursday). -/
def weekday (n : Nat) : Nat := (n + 3) % 7

/-- `is_weekend` from `utils.py` (Saturday = 5, Sunday = 6). -/
def isWeekend (d : Nat) : Bool := 5 ≤ weekday d

/-- `is_holiday` from `utils.py`: membership in the static Italian holiday
calendar or in the caller-supplied custom holiday list (the Python code
compares `YYYY-MM-DD` strings, equivalent to comparing day numbers). -/
def isHoliday (d : Nat) (customHolidays : List Nat) : Bool :=
  d ∈ italianHolidays ∨ d ∈ customHolidays

/-- One row of the vacations table used by `is_available`. -/
structure Vacation where
  ispettore : String
  dataInizio : Nat
  dataFine : Nat
  deriving DecidableEq

/-- `is_available` from `utils.py` (the Boolean component; the Python
function also returns the reason string, which the scheduler discards). -/
def isAvailable (date : Nat) (inspector : String) (vacs : List Vacation)
    (customHolidays : List Nat) : Bool :=
  if isWeekend date then false
  else if isHoliday date customHolidays then false
  else if vacs.any (fun v =>
      v.ispettore == inspector && decide (v.dataInizio ≤ date)
        && decide (date ≤ v.dataFine)) then false
  else true

/-- The search loop of `next_available_date`: try `cur`, `cur+1`, … for at
most the given fuel; when the fuel runs out, fall back to the original
`start` argument. -/
def nextAvailAux (inspector : String) (vacs : List Vacation)
    (customHolidays : List Nat) (start : Nat) : Nat → Nat → Nat
  | 0, _ => start
  | n + 1, cur =>
    if isAvailable cur inspector vacs customHolidays then cur
    else nextAvailAux inspector vacs customHolidays start n (cur + 1)

/-- `next_available_date` from `utils.py` with the default 365-day bound:
the first available date at or after `start`, or `start` itself as a
degraded fallback when no date in the 365-day window is available. -/
def nextAvailableDate (start : Nat) (inspector : String)
    (vacs : List Vacation) (customHolidays : List Nat) : Nat :=
  nextAvailAux inspector vacs customHolidays start 365 start

/-! ## Order matching (`planner_engine.match_orders`) -/

/-- One row of the customer master table (`anagrafica`), restricted to the
columns `match_orders` reads. -/
structure Cliente where
  nomeDelCliente : Option String
  indirizzoCompleto : Option String
  deriving DecidableEq

/-- One row of the confirmed-orders table (`ordini`), restricted to the
columns `match_orders` reads. -/
structure Ordine where
  idOrdine : String
  cliente : Option String
  indirizzoSede : Option String
  deriving DecidableEq

/-- The `(cliente_norm, indirizzo_norm)` join key of a customer row. -/
def clienteKey (c : Cliente) : String × String :=
  (normalizeString c.nomeDelCliente, normalizeString c.indirizzoCompleto)

/-- The `(cliente_norm, indirizzo_norm)` join key of an order row. -/
def ordineKey (o : Ordine) : String × String :=
  (normalizeString o.cliente, normalizeString o.indirizzoSede)

/-- `match_orders` from `planner_engine.py`: inner equi-join of orders
against customers on the normalized keys (every tying combination is
emitted), and the orders whose `ID_Ordine` occurs in no matched row. -/
def matchOrders (anag : List Cliente) (ordini : List Ordine) :
    List (Ordine × Cliente) × List Ordine :=
  let matched := ordini.flatMap (fun o =>
    (anag.filter (fun c => clienteKey c = ordineKey o)).map (fun c => (o, c)))
  let matchedIds := matched.map (fun p => p.1.idOrdine)
  (matched, ordini.filter (fun o => o.idOrdine ∉ matchedIds))

/-! ## Tour builder (`planner_engine.tsp_nearest_neighbor`) -/

/-- One step of the nearest-neighbour selection: the first element of the
list minimizing `f` (Python `min` over `(idx, dist)` pairs returns the
first minimum), together with the remaining pool in its original order
(`unvisited.drop(nearest_idx)`). -/
def pickNearest (f : α → ℚ) : List α → Option (α × List α)
  | [] => none
  | a :: rest =>
    match pickNearest f rest with
    | none => some (a, [])
    | some (b, rest') => if f a ≤ f b then some (a, rest) else some (b, a :: rest')

/-- The loop of `tsp_nearest_neighbor`, with fuel (each iteration removes
exactly one element, so fuel = pool length suffices). -/
def tspGo (dist : ℚ × ℚ → ℚ × ℚ → ℚ) (coordOf : α → ℚ × ℚ) :
    Nat → ℚ × ℚ → List α → List (α × ℚ)
  | 0, _, _ => []
  | n + 1, cur, pool =>
    match pickNearest (fun a => dist cur (coordOf a)) pool with
    | none => []
    | some (a, rest) =>
      (a, dist cur (coordOf a)) :: tspGo dist coordOf n (coordOf a) rest

/-- `tsp_nearest_neighbor` from `planner_engine.py`, parameterized by the
geodesic distance function `dist` (geopy, an external collaborator) and by
the coordinate accessor `coordOf` (the `lat`/`lon` columns of a row):
greedily visit the nearest unvisited client, recording the incremental
distance (`km_from_previous`) of every stop. -/
def tspNN (dist : ℚ × ℚ → ℚ × ℚ → ℚ) (coordOf : α → ℚ × ℚ)
    (baseCoords : ℚ × ℚ) (clients : List α) : List (α × ℚ) :=
  tspGo dist coordOf clients.length baseCoords clients

/-- The specification (sections 4.6 and 8 of the design) of a greedy
nearest-neighbour tour: each stop is drawn from the current pool, is
strictly nearer than every candidate occurring before it in the pool and
at least as near as every candidate after it (ties broken by first
occurrence), its recorded incremental distance is the distance from the
current position, and the rest of the tour is greedy from that stop over
the remaining pool; the tour ends exactly when the pool is exhausted. -/
def IsGreedyTour (dist : ℚ × ℚ → ℚ × ℚ → ℚ) (coordOf : α → ℚ × ℚ) :
    ℚ × ℚ → List α → List (α × ℚ) → Prop
  | _, pool, [] => pool = []
  | cur, pool, (a, d) :: tour =>
    ∃ l₁ l₂, pool = l₁ ++ a :: l₂ ∧
      (∀ b ∈ l₁, dist cur (coordOf a) < dist cur (coordOf b)) ∧
      (∀ b ∈ l₂, dist cur (coordOf a) ≤ dist cur (coordOf b)) ∧
      d = dist cur (coordOf a) ∧
      IsGreedyTour dist coordOf (coordOf a) (l₁ ++ l₂) tour

/-! ## Inspector assignment (`planner_engine.assign_inspectors`) -/

/-- The single column of the matched table that `assign_inspectors`
reads. -/
structure PlanRow where
  regione : String
  deriving DecidableEq

/-- The per-row assignment rule of `assign_inspectors`: a singleton
eligible set is assigned deterministically, otherwise `random.choice`
draws from it — modelled by the caller-supplied `pick`, indexed by row
position. -/
def assignOne (pick : Nat → List String → String) (i : Nat) (row : PlanRow) :
    String :=
  let available := getAvailableInspectors row.regione
  if available.length = 1 then available.headD "" else pick i available

/-- The row loop of `assign_inspectors`, threading the row index. -/
def assignGo (pick : Nat → List String → String) :
    Nat → List PlanRow → List (PlanRow × String)
  | _, [] => []
  | i, row :: rest => (row, assignOne pick i row) :: assignGo pick (i + 1) rest

/-- `assign_inspectors` from `planner_engine.py`, parameterized by the
random source `pick` (the global `random.choice` state): every row gets an
`Ispettore` value. -/
def assignInspectors (pick : Nat → List String → String)
    (df : List PlanRow) : List (PlanRow × String) :=
  assignGo pick 0 df

/-! ## Daily scheduling (`planner_engine.schedule_daily`) -/

/-- One stop of a TSP-ordered tour, restricted to the columns
`schedule_daily` reads (`Ore lavoro`, `km_from_previous`). -/
structure TourStop where
  oreLavoro : ℚ
  kmFromPrevious : ℚ
  deriving DecidableEq

/-- The hours a visit consumes: task hours plus the per-visit buffer plus
travel time at the average speed (`visit_hours + travel_hours` in
`schedule_daily`). -/
def requiredHours (c : TourStop) : ℚ :=
  (c.oreLavoro + bufferHoursPerVisit) + calculateTravelTime c.kmFromPrevious

/-- The hour budget of a calendar day: the reduced Friday budget on a
Friday, the standard budget otherwise. -/
def dayBudget (d : Nat) : ℚ :=
  if weekday d = 4 then maxHoursFriday else maxHoursPerDay

/-- The visit loop of `schedule_daily`: if the visit would overflow the
current day's budget, advance to the next available date and reset the
accumulator, then assign the visit to the current date unconditionally. -/
def scheduleGo (inspector : String) (vacs : List Vacation) :
    List TourStop → Nat → ℚ → List (TourStop × Nat)
  | [], _, _ => []
  | c :: rest, cur, daily =>
    let total := requiredHours c
    if dayBudget cur < daily + total then
      let cur' := nextAvailableDate (cur + 1) inspector vacs []
      (c, cur') :: scheduleGo inspector vacs rest cur' total
    else
      (c, cur) :: scheduleGo inspector vacs rest cur (daily + total)

/-- `schedule_daily` from `planner_engine.py`: start at the first
available date at or after `startDate` and pack the tour's visits into
working days (the function also derives the ISO week number and Italian
day name from the assigned date; only the date is modelled). -/
def scheduleDaily (clients : List TourStop) (inspector : String)
    (startDate : Nat) (vacs : List Vacation) : List (TourStop × Nat) :=
  scheduleGo inspector vacs clients
    (nextAvailableDate startDate inspector vacs []) 0

/-- The visits of a schedule assigned to day `d`. -/
def dayVisits (sched : List (TourStop × Nat)) (d : Nat) :
    List (TourStop × Nat) :=
  sched.filter (fun p => p.2 = d)

/-- The accumulated required hours of day `d` in a schedule. -/
def daySum (sched : List (TourStop × Nat)) (d : Nat) : ℚ :=
  ((dayVisits sched d).map (fun p => requiredHours p.1)).sum

/-- Day `d` respects its budget, except that a lone overflowing visit is
tolerated: either the day's accumulated hours fit the budget, or the day
carries exactly one visit whose own required hours exceed that day's
budget. -/
def BudgetOK (sched : List (TourStop × Nat)) (d : Nat) : Prop :=
  daySum sched d ≤ dayBudget d ∨
    ∃ c : TourStop, dayVisits sched d = [(c, d)] ∧ dayBudget d < requiredHours c

/-! ## Renewals (`planner_engine.generate_renewals_list`) -/

/-- One row of the customer master table, restricted to the columns the
renewal selector reads; `dataRif` is the reference date parsed by
`pd.to_datetime(..., errors="coerce")` — `none` models NaT (an
unparseable date), `some d` a timestamp of `d` days since the epoch
(midnight, so `d` is an integer-valued rational). -/
structure AnagRow where
  idCliente : String
  nome : String
  dataRif : Option ℚ
  deriving DecidableEq

/-- One output row of the renewals list (`RENEWALS_COLUMNS`), restricted
to the identifying columns, the computed days-to-expiry, and the four
contact-tracking columns the selector initializes empty. -/
structure RenewalRow where
  idCliente : String
  cliente : String
  giorniAScadenza : ℤ
  statoContatto : String
  dataContatto : String
  ordineRicevuto : String
  note : String
  deriving DecidableEq

/-- Build one renewals-list row: days-to-expiry is
`(Data_Riferimento_DT - today).dt.days`, the floor of the signed day
difference, and the contact-tracking columns start empty. -/
def mkRenewalRow (now : ℚ) (a : AnagRow) (d : ℚ) : RenewalRow :=
  { idCliente := a.idCliente, cliente := a.nome,
    giorniAScadenza := ⌊d - now⌋,
    statoContatto := "", dataContatto := "", ordineRicevuto := "", note := "" }

/-- Insert a row into a list sorted ascending by `Giorni_a_Scadenza`. -/
def insertByGiorni (r : RenewalRow) : List RenewalRow → List RenewalRow
  | [] => [r]
  | x :: rest =>
    if x.giorniAScadenza ≤ r.giorniAScadenza then x :: insertByGiorni r rest
    else r :: x :: rest

/-- `sort_values("Giorni_a_Scadenza")`: sort ascending by days-to-expiry
(insertion sort; the engine's contract fixes only the ordering). -/
def sortByGiorni : List RenewalRow → List RenewalRow
  | [] => []
  | r :: rest => insertByGiorni r (sortByGiorni rest)

/-- `generate_renewals_list` from `planner_engine.py`: keep the rows whose
parsed reference date lies between `now` (the `datetime.now()` instant)
and `now` plus the alert window, attach days-to-expiry and empty
contact-tracking fields, and sort ascending by days-to-expiry. Rows with
an unparseable date (`none`) are dropped because NaT comparisons are
false. -/
def generateRenewalsList (now : ℚ) (alertDays : ℕ) (anag : List AnagRow) :
    List RenewalRow :=
  sortByGiorni (anag.filterMap (fun a =>
    match a.dataRif with
    | none => none
    | some d =>
      if d ≤ now + alertDays ∧ now ≤ d then some (mkRenewalRow now a d)
      else none))

/-! ## Manual reassignment (`planner_engine.update_inspector_assignment`) -/

/-- One row of the final planning table, restricted to the columns of
interest to reassignment: the assigned inspector plus enough other fields
to express that nothing else changes. -/
structure Visit where
  cliente : String
  regione : String
  ispettore : String
  dataVisita : Nat
  oreLavoro : ℚ
  deriving DecidableEq

/-- `updated_df.at[visit_index, "Ispettore"] = new_inspector`: overwrite
the inspector of the row at `visitIndex`, leaving every other row and
every other field untouched (modelled for an index that denotes a row of
the plan; pandas `.at` on a missing label would instead enlarge the
frame). -/
def setInspector : List Visit → Nat → String → List Visit
  | [], _, _ => []
  | v :: rest, 0, insp => { v with ispettore := insp } :: rest
  | v :: rest, n + 1, insp => v :: setInspector rest n insp

/-- `update_inspector_assignment` from `planner_engine.py`: validate the
territorial constraint; on failure return the message and the plan
unchanged, on success overwrite the one inspector cell (the Python
`message if message else "Assegnazione aggiornata"` keeps a nonempty
warning). -/
def updateInspectorAssignment (planningDf : List Visit) (visitIndex : Nat)
    (newInspector region : String) : Bool × String × List Visit :=
  let v := validateInspectorAssignment newInspector region
  if v.1 = false then (false, v.2, planningDf)
  else (true, if v.2 = "" then "Assegnazione aggiornata" else v.2,
    setInspector planningDf visitIndex newInspector)

/-! ## Helper lemmas -/

theorem assignGo_spec (pick : Nat → List String → String)
    (hpick : ∀ i l, l ≠ [] → pick i l ∈ l) :
    ∀ (df : List PlanRow) (i : Nat), ∀ p ∈ assignGo pick i df,
      (p.1.regione ∈ PAOLO_REGIONS → p.2 = "Paolo") ∧
      (p.1.regione ∉ PAOLO_REGIONS → p.2 ∈ NATIONAL_INSPECTORS) := by
  intro df
  induction df with
  | nil => intro i p hp; simp [assignGo] at hp
  | cons row rest ih =>
    intro i p hp
    simp only [assignGo, List.mem_cons] at hp
    rcases hp with rfl | hp
    · constructor
      · intro hreg
        simp [assignOne, getAvailableInspectors, hreg]
      · intro hreg
        have hne : NATIONAL_INSPECTORS ≠ [] := by simp [NATIONAL_INSPECTORS]
        have : assignOne pick i row = pick i NATIONAL_INSPECTORS := by
          simp [assignOne, getAvailableInspectors, hreg, NATIONAL_INSPECTORS]
        simpa [this] using hpick i NATIONAL_INSPECTORS hne
    · exact ih (i + 1) p hp

theorem assignGo_pick_free (pick₁ pick₂ : Nat → List String → String) :
    ∀ (df : List PlanRow), (∀ r ∈ df, r.regione ∈ PAOLO_REGIONS) →
      ∀ (i j : Nat), assignGo pick₁ i df = assignGo pick₂ j df := by
  intro df
  induction df with
  | nil => intro _ i j; rfl
  | cons row rest ih =>
    intro h i j
    have hrow := h row (by simp)
    have hrest : ∀ r ∈ rest, r.regione ∈ PAOLO_REGIONS := fun r hr => h r (by simp [hr])
    simp only [assignGo]
    have hone : assignOne pick₁ i row = assignOne pick₂ j row := by
      simp [assignOne, getAvailableInspectors, hrow]
    rw [hone, ih hrest (i + 1) (j + 1)]

theorem setInspector_getElem_self (insp : String) :
    ∀ (plan : List Visit) (i : Nat),
      (setInspector plan i insp)[i]? =
        plan[i]?.map (fun v => { v with ispettore := insp }) := by
  intro plan
  induction plan with
  | nil => intro i; simp [setInspector]
  | cons v rest ih =>
    intro i
    cases i with
    | zero => simp [setInspector]
    | succ n => simpa [setInspector] using ih n

theorem setInspector_getElem_ne (insp : String) :
    ∀ (plan : List Visit) (i j : Nat), j ≠ i →
      (setInspector plan i insp)[j]? = plan[j]? := by
  intro plan
  induction plan with
  | nil => intro i j _; simp [setInspector]
  | cons v rest ih =>
    intro i j hj
    cases i with
    | zero =>
      cases j with
      | zero => exact absurd rfl hj
      | succ m => simp [setInspector]
    | succ n =>
      cases j with
      | zero => simp [setInspector]
      | succ m => simpa [setInspector] using ih n m (by omega)

/-! ## Claim C1 — territorial invariant of automatic assignment -/

/-- C1: for every candidate table and every realization of the random
draw (any `pick` that returns an element of the offered list), a candidate
produced by `assign_inspectors` is assigned Paolo exactly when its region
lies in Paolo's allow-list: allow-list regions always get Paolo, and no
region outside the allow-list is ever assigned Paolo. -/
theorem claim_C1_territorial_assignment (pick : Nat → List String → String)
    (df : List PlanRow) (p : PlanRow × String)
    (hpick : ∀ i l, l ≠ [] → pick i l ∈ l)
    (hp : p ∈ assignInspectors pick df) :
    p.1.regione ∈ PAOLO_REGIONS ↔ p.2 = "Paolo" := by
  have h := assignGo_spec pick hpick df 0 p hp
  constructor
  · exact h.1
  · intro hpaolo
    by_contra hreg
    have := h.2 hreg
    rw [hpaolo] at this
    simp [NATIONAL_INSPECTORS] at this

/-- Witness for C1 at a concrete table and a concrete random source. -/
theorem claim_C1_territorial_assignment_witness :
    ((⟨"Toscana"⟩ : PlanRow).regione ∈ PAOLO_REGIONS ↔ ("Adrian" : String) = "Paolo") ∧
    ((⟨"Lombardia"⟩ : PlanRow).regione ∈ PAOLO_REGIONS ↔ ("Paolo" : String) = "Paolo") := by
  have hpick : ∀ (i : Nat) (l : List String), l ≠ [] →
      (fun (_ : Nat) (l : List String) => l.headD "") i l ∈ l := by
    intro i l hl
    cases l with
    | nil => exact absurd rfl hl
    | cons a t => exact List.mem_cons_self a t
  constructor
  · exact claim_C1_territorial_assignment (fun _ l => l.headD "")
      [⟨"Lombardia"⟩, ⟨"Toscana"⟩] (⟨"Toscana"⟩, "Adrian") hpick (by decide)
  · exact claim_C1_territorial_assignment (fun _ l => l.headD "")
      [⟨"Lombardia"⟩, ⟨"Toscana"⟩] (⟨"Lombardia"⟩, "Paolo") hpick (by decide)

/-! ## Claim C8 — determinism across runs -/

/-- C8 counterexample: the engine is not a pure function of its input
tables alone — `assign_inspectors` consults the global random state, so
two invocations on the identical one-row table (a region outside Paolo's
allow-list) can legitimately draw different inspectors (both draws are
members of the offered eligible list) and produce different plans. -/
theorem claim_C8_counterexample :
    ((fun (_ : Nat) (l : List String) => l.headD "") 0 NATIONAL_INSPECTORS
        ∈ NATIONAL_INSPECTORS) ∧
    ((fun (_ : Nat) (l : List String) => (l.drop 1).headD "") 0 NATIONAL_INSPECTORS
        ∈ NATIONAL_INSPECTORS) ∧
    assignInspectors (fun _ l => l.headD "") [⟨"Toscana"⟩] ≠
      assignInspectors (fun _ l => (l.drop 1).headD "") [⟨"Toscana"⟩] := by
  decide

/-- C8 (amended): each invocation is a pure function of the input tables,
the static configuration, and the stream of random draws; the random
stream is the only cross-run state, and it is consulted only for
candidates outside the restricted inspector's allow-list — a table whose
regions all lie in Paolo's allow-list yields the identical plan whatever
the random source. -/
theorem claim_C8_amended_determinism (df : List PlanRow)
    (h : ∀ r ∈ df, r.regione ∈ PAOLO_REGIONS)
    (pick₁ pick₂ : Nat → List String → String) :
    assignInspectors pick₁ df = assignInspectors pick₂ df :=
  assignGo_pick_free pick₁ pick₂ df h 0 0

/-- Witness for the amended C8 at a concrete all-allow-list table. -/
theorem claim_C8_amended_determinism_witness :
    assignInspectors (fun _ l => l.headD "") [⟨"Lombardia"⟩, ⟨"Liguria"⟩] =
      assignInspectors (fun _ l => (l.drop 1).headD "") [⟨"Lombardia"⟩, ⟨"Liguria"⟩] :=
  claim_C8_amended_determinism [⟨"Lombardia"⟩, ⟨"Liguria"⟩] (by decide) _ _

/-! ## Claim C7 — manual reassignment frame conditions -/

/-- C7: for a visit index denoting a row of the plan, a reassignment that
violates the territorial restriction (Paolo outside his allow-list)
returns `ok = false` with a nonempty explanatory message and the plan
unchanged; an allowed reassignment returns `ok = true`, sets exactly the
addressed visit's inspector field, and leaves every other row (and every
other field of the addressed row) unchanged. -/
theorem claim_C7_reassignment_frame (plan : List Visit) (i : Nat)
    (insp region : String) (h : i < plan.length) :
    (insp = "Paolo" ∧ region ∉ PAOLO_REGIONS →
      (updateInspectorAssignment plan i insp region).1 = false ∧
      (updateInspectorAssignment plan i insp region).2.1 ≠ "" ∧
      (updateInspectorAssignment plan i insp region).2.2 = plan) ∧
    (¬(insp = "Paolo" ∧ region ∉ PAOLO_REGIONS) →
      (updateInspectorAssignment plan i insp region).1 = true ∧
      (updateInspectorAssignment plan i insp region).2.2[i]? =
        some { plan[i] with ispettore := insp } ∧
      ∀ j, j ≠ i →
        (updateInspectorAssignment plan i insp region).2.2[j]? = plan[j]?) := by
  constructor
  · intro hc
    simp [updateInspectorAssignment, validateInspectorAssignment, hc]
  · intro hc
    have hgoti : plan[i]? = some plan[i] := List.getElem?_eq_getElem h
    have hupd : (updateInspectorAssignment plan i insp region).2.2 =
        setInspector plan i insp := by
      by_cases hw : insp ≠ "Paolo" ∧ region ∈ PAOLO_REGIONS
      · simp [updateInspectorAssignment, validateInspectorAssignment, hc, hw]
      · simp [updateInspectorAssignment, validateInspectorAssignment, hc, hw]
    refine ⟨?_, ?_, ?_⟩
    · by_cases hw : insp ≠ "Paolo" ∧ region ∈ PAOLO_REGIONS
      · simp [updateInspectorAssignment, validateInspectorAssignment, hc, hw]
      · simp [updateInspectorAssignment, validateInspectorAssignment, hc, hw]
    · rw [hupd, setInspector_getElem_self, hgoti]
      rfl
    · intro j hj
      rw [hupd, setInspector_getElem_ne insp plan i j hj]

/-- Witness for C7: a rejected and an accepted reassignment on a concrete
one-row plan. -/
theorem claim_C7_reassignment_frame_witness :
    ((updateInspectorAssignment [⟨"A", "Lombardia", "Paolo", 0, 1⟩] 0 "Paolo" "Toscana").1 = false ∧
      (updateInspectorAssignment [⟨"A", "Lombardia", "Paolo", 0, 1⟩] 0 "Paolo" "Toscana").2.1 ≠ "" ∧
      (updateInspectorAssignment [⟨"A", "Lombardia", "Paolo", 0, 1⟩] 0 "Paolo" "Toscana").2.2 =
        [⟨"A", "Lombardia", "Paolo", 0, 1⟩]) ∧
    ((updateInspectorAssignment [⟨"A", "Lombardia", "Paolo", 0, 1⟩] 0 "Adrian" "Lombardia").1 = true ∧
      (updateInspectorAssignment [⟨"A", "Lombardia", "Paolo", 0, 1⟩] 0 "Adrian" "Lombardia").2.2[0]? =
        some (⟨"A", "Lombardia", "Adrian", 0, 1⟩ : Visit) ∧
      ∀ j, j ≠ 0 →
        (updateInspectorAssignment [⟨"A", "Lombardia", "Paolo", 0, 1⟩] 0 "Adrian" "Lombardia").2.2[j]? =
          ([⟨"A", "Lombardia", "Paolo", 0, 1⟩] : List Visit)[j]?) := by
  constructor
  · exact (claim_C7_reassignment_frame [⟨"A", "Lombardia", "Paolo", 0, 1⟩] 0 "Paolo" "Toscana"
      (by simp)).1 ⟨rfl, by decide⟩
  · exact (claim_C7_reassignment_frame [⟨"A", "Lombardia", "Paolo", 0, 1⟩] 0 "Adrian" "Lombardia"
      (by simp)).2 (by intro hx; exact absurd hx.1 (by decide))

/-! ## Claim C10 — the single failure condition of reassignment -/

/-- C10: `update_inspector_assignment` fails (returns `ok = false`) if and
only if the requested inspector is Paolo and the region lies outside
Paolo's allow-list; in every other case — including a national inspector
inside Paolo's territory, which merely attaches a warning — it succeeds,
and for an index denoting a row it writes the new inspector into that
row. -/
theorem claim_C10_failure_iff (plan : List Visit) (i : Nat)
    (insp region : String) (h : i < plan.length) :
    ((updateInspectorAssignment plan i insp region).1 = false ↔
      insp = "Paolo" ∧ region ∉ PAOLO_REGIONS) ∧
    ((updateInspectorAssignment plan i insp region).1 = true →
      ((updateInspectorAssignment plan i insp region).2.2[i]?.map
        Visit.ispettore = some insp)) := by
  by_cases hc : insp = "Paolo" ∧ region ∉ PAOLO_REGIONS
  · constructor
    · simp [updateInspectorAssignment, validateInspectorAssignment, hc]
    · intro hok
      exfalso
      simp [updateInspectorAssignment, validateInspectorAssignment, hc] at hok
  · have hgoti : plan[i]? = some plan[i] := List.getElem?_eq_getElem h
    by_cases hw : insp ≠ "Paolo" ∧ region ∈ PAOLO_REGIONS
    · constructor
      · simp [updateInspectorAssignment, validateInspectorAssignment, hc, hw]
      · intro _
        simp [updateInspectorAssignment, validateInspectorAssignment, hc, hw,
          setInspector_getElem_self, hgoti]
    · constructor
      · simp [updateInspectorAssignment, validateInspectorAssignment, hc, hw]
      · intro _
        simp [updateInspectorAssignment, validateInspectorAssignment, hc, hw,
          setInspector_getElem_self, hgoti]

/-- Witness for C10: the failure characterization and a performed update
at a concrete plan — in particular a national inspector is accepted inside
Paolo's territory. -/
theorem claim_C10_failure_iff_witness :
    ((updateInspectorAssignment [⟨"A", "Lombardia", "Paolo", 0, 1⟩] 0 "Mattia" "Lombardia").1 = false ↔
      ("Mattia" : String) = "Paolo" ∧ ("Lombardia" : String) ∉ PAOLO_REGIONS) ∧
    ((updateInspectorAssignment [⟨"A", "Lombardia", "Paolo", 0, 1⟩] 0 "Mattia" "Lombardia").1 = true →
      ((updateInspectorAssignment [⟨"A", "Lombardia", "Paolo", 0, 1⟩] 0 "Mattia" "Lombardia").2.2[0]?.map
        Visit.ispettore = some "Mattia")) :=
  claim_C10_failure_iff [⟨"A", "Lombardia", "Paolo", 0, 1⟩] 0 "Mattia" "Lombardia" (by simp)

/-! ## Claim C6 — order matching semantics -/

theorem matchOrders_fst_eq (anag : List Cliente) (ordini : List Ordine) :
    (matchOrders anag ordini).1 = ordini.flatMap (fun o =>
      (anag.filter (fun c => clienteKey c = ordineKey o)).map (fun c => (o, c))) :=
  rfl

theorem matchOrders_snd_eq (anag : List Cliente) (ordini : List Ordine) :
    (matchOrders anag ordini).2 = ordini.filter (fun o =>
      o.idOrdine ∉ (matchOrders anag ordini).1.map (fun p => p.1.idOrdine)) :=
  rfl

theorem matchOrders_mem_matched (anag : List Cliente) (ordini : List Ordine)
    (o : Ordine) (c : Cliente) :
    (o, c) ∈ (matchOrders anag ordini).1 ↔
      o ∈ ordini ∧ c ∈ anag ∧ clienteKey c = ordineKey o := by
  rw [matchOrders_fst_eq, List.mem_flatMap]
  simp only [List.mem_map, List.mem_filter, decide_eq_true_eq]
  constructor
  · rintro ⟨o', ho', c', ⟨hc', hkey⟩, heq⟩
    rw [Prod.mk.injEq] at heq
    obtain ⟨rfl, rfl⟩ := heq
    exact ⟨ho', hc', hkey⟩
  · rintro ⟨ho, hc, hkey⟩
    exact ⟨o, ho, c, ⟨hc, hkey⟩, rfl⟩

theorem matchOrders_mem_unmatched (anag : List Cliente) (ordini : List Ordine)
    (u : Ordine) :
    u ∈ (matchOrders anag ordini).2 ↔
      u ∈ ordini ∧
        ∀ p ∈ (matchOrders anag ordini).1, p.1.idOrdine ≠ u.idOrdine := by
  rw [matchOrders_snd_eq, List.mem_filter]
  simp only [List.mem_map, decide_eq_true_eq, not_exists]
  constructor
  · rintro ⟨hu, hids⟩
    refine ⟨hu, fun p hp heq => ?_⟩
    simp only [not_and] at hids
    exact hids p hp heq
  · rintro ⟨hu, hall⟩
    refine ⟨hu, ?_⟩
    simp only [not_and]
    exact fun p hp heq => hall p hp heq

/-- C6: an order row and a customer row are joined exactly when their
normalized `(name, address)` keys coincide (so every tying combination is
emitted); every order id occurs in exactly one of the matched and the
unmatched set; the unmatched set only contains input orders; and the
normalization maps a non-string cell to the empty string and uppercases,
trims and collapses whitespace (shown on the reference example). -/
theorem claim_C6_matching (anag : List Cliente) (ordini : List Ordine) :
    (∀ o c, (o, c) ∈ (matchOrders anag ordini).1 ↔
      o ∈ ordini ∧ c ∈ anag ∧ clienteKey c = ordineKey o) ∧
    (∀ o ∈ ordini,
      ((∃ p ∈ (matchOrders anag ordini).1, p.1.idOrdine = o.idOrdine) ↔
        ¬ ∃ u ∈ (matchOrders anag ordini).2, u.idOrdine = o.idOrdine)) ∧
    (∀ u ∈ (matchOrders anag ordini).2, u ∈ ordini) ∧
    normalizeString none = "" ∧
    normalizeString (some "  Via  Roma,  1  ") = "VIA ROMA, 1" := by
  refine ⟨matchOrders_mem_matched anag ordini, ?_, ?_, rfl, by decide⟩
  · intro o ho
    constructor
    · rintro ⟨p, hp, hid⟩ ⟨u, hu, huid⟩
      have := ((matchOrders_mem_unmatched anag ordini u).mp hu).2 p hp
      exact this (hid.trans huid.symm)
    · intro hnou
      by_contra hnop
      push_neg at hnop
      refine hnou ⟨o, ?_, rfl⟩
      refine (matchOrders_mem_unmatched anag ordini o).mpr ⟨ho, ?_⟩
      intro p hp hid
      exact hnop p hp hid
  · intro u hu
    exact ((matchOrders_mem_unmatched anag ordini u).mp hu).1

/-- Witness for C6 at a one-row customer table and a two-row order table
(one matching order — up to case and whitespace — and one unmatched). -/
theorem claim_C6_matching_witness :
    (∀ o c, (o, c) ∈ (matchOrders ([⟨some "Rossi", some " via  roma 1 "⟩] : List Cliente)
        ([⟨"O1", some "ROSSI", some "VIA ROMA 1"⟩, ⟨"O2", some "Bianchi", some "Via Po 2"⟩] : List Ordine)).1 ↔
      o ∈ ([⟨"O1", some "ROSSI", some "VIA ROMA 1"⟩, ⟨"O2", some "Bianchi", some "Via Po 2"⟩] : List Ordine) ∧
      c ∈ ([⟨some "Rossi", some " via  roma 1 "⟩] : List Cliente) ∧ clienteKey c = ordineKey o) ∧
    (∀ o ∈ ([⟨"O1", some "ROSSI", some "VIA ROMA 1"⟩, ⟨"O2", some "Bianchi", some "Via Po 2"⟩] : List Ordine),
      ((∃ p ∈ (matchOrders ([⟨some "Rossi", some " via  roma 1 "⟩] : List Cliente)
          ([⟨"O1", some "ROSSI", some "VIA ROMA 1"⟩, ⟨"O2", some "Bianchi", some "Via Po 2"⟩] : List Ordine)).1,
            p.1.idOrdine = o.idOrdine) ↔
        ¬ ∃ u ∈ (matchOrders ([⟨some "Rossi", some " via  roma 1 "⟩] : List Cliente)
          ([⟨"O1", some "ROSSI", some "VIA ROMA 1"⟩, ⟨"O2", some "Bianchi", some "Via Po 2"⟩] : List Ordine)).2,
            u.idOrdine = o.idOrdine)) ∧
    (∀ u ∈ (matchOrders ([⟨some "Rossi", some " via  roma 1 "⟩] : List Cliente)
        ([⟨"O1", some "ROSSI", some "VIA ROMA 1"⟩, ⟨"O2", some "Bianchi", some "Via Po 2"⟩] : List Ordine)).2,
      u ∈ ([⟨"O1", some "ROSSI", some "VIA ROMA 1"⟩, ⟨"O2", some "Bianchi", some "Via Po 2"⟩] : List Ordine)) ∧
    normalizeString none = "" ∧
    normalizeString (some "  Via  Roma,  1  ") = "VIA ROMA, 1" :=
  claim_C6_matching ([⟨some "Rossi", some " via  roma 1 "⟩] : List Cliente)
    ([⟨"O1", some "ROSSI", some "VIA ROMA 1"⟩, ⟨"O2", some "Bianchi", some "Via Po 2"⟩] : List Ordine)

/-! ## Claim C4 — nearest-neighbour tour builder -/

theorem pickNearest_eq_none {α : Type _} {f : α → ℚ} {l : List α} :
    pickNearest f l = none ↔ l = [] := by
  cases l with
  | nil => simp [pickNearest]
  | cons a rest =>
    simp only [pickNearest]
    cases h : pickNearest f rest with
    | none => simp
    | some p =>
      rcases p with ⟨b, r⟩
      by_cases hf : f a ≤ f b <;> simp [hf]

theorem pickNearest_spec {α : Type _} {f : α → ℚ} :
    ∀ {l : List α} {a : α} {rest : List α}, pickNearest f l = some (a, rest) →
      ∃ l₁ l₂, l = l₁ ++ a :: l₂ ∧ rest = l₁ ++ l₂ ∧
        (∀ b ∈ l₁, f a < f b) ∧ (∀ b ∈ l₂, f a ≤ f b) := by
  intro l
  induction l with
  | nil => intro a rest h; simp [pickNearest] at h
  | cons x t ih =>
    intro a rest h
    simp only [pickNearest] at h
    cases ht : pickNearest f t with
    | none =>
      rw [ht] at h
      have ht' : t = [] := pickNearest_eq_none.mp ht
      subst ht'
      simp only [Option.some.injEq, Prod.mk.injEq] at h
      obtain ⟨rfl, rfl⟩ := h
      exact ⟨[], [], rfl, rfl, by simp, by simp⟩
    | some p =>
      rcases p with ⟨b, r⟩
      rw [ht] at h
      dsimp only at h
      by_cases hf : f x ≤ f b
      · rw [if_pos hf] at h
        simp only [Option.some.injEq, Prod.mk.injEq] at h
        obtain ⟨rfl, rfl⟩ := h
        obtain ⟨m₁, m₂, hteq, _, hstrict, hle⟩ := ih ht
        refine ⟨[], t, rfl, rfl, by simp, ?_⟩
        intro c hc
        rw [hteq] at hc
        rcases List.mem_append.mp hc with hc1 | hc2
        · exact le_trans hf (le_of_lt (hstrict c hc1))
        · rcases List.mem_cons.mp hc2 with rfl | hc3
          · exact hf
          · exact le_trans hf (hle c hc3)
      · rw [if_neg hf] at h
        simp only [Option.some.injEq, Prod.mk.injEq] at h
        obtain ⟨rfl, rfl⟩ := h
        obtain ⟨m₁, m₂, hteq, hreq, hstrict, hle⟩ := ih ht
        refine ⟨x :: m₁, m₂, by rw [hteq]; rfl, by rw [hreq]; rfl, ?_, hle⟩
        intro c hc
        rcases List.mem_cons.mp hc with rfl | hc1
        · exact lt_of_not_le hf
        · exact hstrict c hc1

theorem pickNearest_length {α : Type _} {f : α → ℚ} {l : List α} {a : α}
    {rest : List α} (h : pickNearest f l = some (a, rest)) :
    l.length = rest.length + 1 := by
  obtain ⟨l₁, l₂, h1, h2, _, _⟩ := pickNearest_spec h
  subst h1
  subst h2
  simp [List.length_append]
  omega

theorem tspGo_greedy {α : Type _} (dist : ℚ × ℚ → ℚ × ℚ → ℚ)
    (coordOf : α → ℚ × ℚ) :
    ∀ (n : Nat) (cur : ℚ × ℚ) (pool : List α), pool.length ≤ n →
      IsGreedyTour dist coordOf cur pool (tspGo dist coordOf n cur pool) := by
  intro n
  induction n with
  | zero =>
    intro cur pool hlen
    have hp : pool = [] := List.length_eq_zero.mp (Nat.le_zero.mp hlen)
    subst hp
    simp [tspGo, IsGreedyTour]
  | succ n ih =>
    intro cur pool hlen
    cases hpick : pickNearest (fun a => dist cur (coordOf a)) pool with
    | none =>
      have hp : pool = [] := pickNearest_eq_none.mp hpick
      subst hp
      simp [tspGo, IsGreedyTour]
    | some p =>
      rcases p with ⟨a, rest⟩
      obtain ⟨l₁, l₂, hpool, hrest, hstrict, hle⟩ := pickNearest_spec hpick
      have hlen' : rest.length ≤ n := by
        have := pickNearest_length hpick
        omega
      have hout : tspGo dist coordOf (n + 1) cur pool =
          (a, dist cur (coordOf a)) :: tspGo dist coordOf n (coordOf a) rest := by
        simp [tspGo, hpick]
      rw [hout]
      simp only [IsGreedyTour]
      refine ⟨l₁, l₂, hpool, hstrict, hle, by trivial, ?_⟩
      rw [← hrest]
      exact ih (coordOf a) rest hlen'

theorem IsGreedyTour_perm {α : Type _} (dist : ℚ × ℚ → ℚ × ℚ → ℚ)
    (coordOf : α → ℚ × ℚ) :
    ∀ (out : List (α × ℚ)) (cur : ℚ × ℚ) (pool : List α),
      IsGreedyTour dist coordOf cur pool out →
        List.Perm (out.map Prod.fst) pool := by
  intro out
  induction out with
  | nil =>
    intro cur pool h
    simp only [IsGreedyTour] at h
    simp [h]
  | cons pd rest ih =>
    rcases pd with ⟨a, d⟩
    intro cur pool h
    simp only [IsGreedyTour] at h
    obtain ⟨l₁, l₂, hpool, _, _, _, hrec⟩ := h
    have hperm := ih (coordOf a) (l₁ ++ l₂) hrec
    rw [hpool]
    exact (hperm.cons a).trans List.perm_middle.symm

/-- C4: for every distance function (the geodesic metric is an external
collaborator), home-base coordinate and candidate group, the tour builder
returns a greedy nearest-neighbour tour: a permutation of the input of the
same length with no candidate repeated, in which each stop is the nearest
remaining candidate from the current position (ties broken by first
occurrence in iteration order), the first stop's recorded incremental
distance is measured from the home base, every later stop's from its
immediate predecessor, and the empty input yields the empty tour. -/
theorem claim_C4_tour_builder {α : Type _} (dist : ℚ × ℚ → ℚ × ℚ → ℚ)
    (coordOf : α → ℚ × ℚ) (baseCoords : ℚ × ℚ) (clients : List α)
    (hnd : clients.Nodup) :
    IsGreedyTour dist coordOf baseCoords clients
      (tspNN dist coordOf baseCoords clients) ∧
    List.Perm ((tspNN dist coordOf baseCoords clients).map Prod.fst) clients ∧
    (tspNN dist coordOf baseCoords clients).length = clients.length ∧
    ((tspNN dist coordOf baseCoords clients).map Prod.fst).Nodup ∧
    tspNN dist coordOf baseCoords ([] : List α) = [] := by
  have hg := tspGo_greedy dist coordOf clients.length baseCoords clients le_rfl
  have hperm := IsGreedyTour_perm dist coordOf
    (tspNN dist coordOf baseCoords clients) baseCoords clients hg
  refine ⟨hg, hperm, ?_, ?_, rfl⟩
  · have := hperm.length_eq
    simpa using this
  · exact hperm.nodup_iff.mpr hnd

/-- Witness for C4 at a concrete metric (taxicab on ℚ × ℚ), home base and
three-point candidate list. -/
theorem claim_C4_tour_builder_witness :
    IsGreedyTour (fun p q => |p.1 - q.1| + |p.2 - q.2|)
      (fun n : ℕ => ((n : ℚ), 0)) (0, 0) [3, 1, 2]
      (tspNN (fun p q => |p.1 - q.1| + |p.2 - q.2|)
        (fun n : ℕ => ((n : ℚ), 0)) (0, 0) [3, 1, 2]) ∧
    List.Perm ((tspNN (fun p q => |p.1 - q.1| + |p.2 - q.2|)
      (fun n : ℕ => ((n : ℚ), 0)) (0, 0) [3, 1, 2]).map Prod.fst) [3, 1, 2] ∧
    (tspNN (fun p q => |p.1 - q.1| + |p.2 - q.2|)
      (fun n : ℕ => ((n : ℚ), 0)) (0, 0) [3, 1, 2]).length = ([3, 1, 2] : List ℕ).length ∧
    ((tspNN (fun p q => |p.1 - q.1| + |p.2 - q.2|)
      (fun n : ℕ => ((n : ℚ), 0)) (0, 0) [3, 1, 2]).map Prod.fst).Nodup ∧
    tspNN (fun p q => |p.1 - q.1| + |p.2 - q.2|)
      (fun n : ℕ => ((n : ℚ), 0)) (0, 0) ([] : List ℕ) = [] :=
  claim_C4_tour_builder (fun p q => |p.1 - q.1| + |p.2 - q.2|)
    (fun n : ℕ => ((n : ℚ), 0)) (0, 0) [3, 1, 2] (by decide)

/-! ## Calendar search and scheduling lemmas -/

theorem nextAvailAux_succ_eq (insp : String) (vacs : List Vacation)
    (custom : List Nat) (s n cur : Nat) :
    nextAvailAux insp vacs custom s (n + 1) cur =
      if isAvailable cur insp vacs custom then cur
      else nextAvailAux insp vacs custom s n (cur + 1) := rfl

theorem nextAvailAux_found (insp : String) (vacs : List Vacation)
    (custom : List Nat) (s : Nat) :
    ∀ (n cur : Nat),
      (∃ k, k < n ∧ isAvailable (cur + k) insp vacs custom = true) →
      isAvailable (nextAvailAux insp vacs custom s n cur) insp vacs custom = true := by
  intro n
  induction n with
  | zero =>
    intro cur h
    obtain ⟨k, hk, _⟩ := h
    omega
  | succ n ih =>
    intro cur h
    obtain ⟨k, hk, hav⟩ := h
    rw [nextAvailAux_succ_eq]
    by_cases h0 : isAvailable cur insp vacs custom = true
    · rwa [if_pos h0]
    · rw [if_neg h0]
      apply ih
      have hk0 : k ≠ 0 := by
        intro hk0
        rw [hk0, Nat.add_zero] at hav
        exact h0 hav
      refine ⟨k - 1, by omega, ?_⟩
      have hc : cur + 1 + (k - 1) = cur + k := by omega
      rw [hc]
      exact hav

theorem nextAvailAux_exhausted (insp : String) (vacs : List Vacation)
    (custom : List Nat) (s : Nat) :
    ∀ (n cur : Nat),
      (∀ k, k < n → isAvailable (cur + k) insp vacs custom = false) →
      nextAvailAux insp vacs custom s n cur = s := by
  intro n
  induction n with
  | zero => intro cur _; rfl
  | succ n ih =>
    intro cur hall
    have h0 : isAvailable cur insp vacs custom = false := by
      have := hall 0 (by omega)
      simpa using this
    rw [nextAvailAux_succ_eq, if_neg (by simp [h0])]
    apply ih
    intro k hk
    have hc : cur + 1 + k = cur + (k + 1) := by omega
    rw [hc]
    exact hall (k + 1) (by omega)

theorem nextAvailAux_ge (insp : String) (vacs : List Vacation)
    (custom : List Nat) (s : Nat) :
    ∀ (n cur : Nat), s ≤ cur → s ≤ nextAvailAux insp vacs custom s n cur := by
  intro n
  induction n with
  | zero => intro cur _; exact le_rfl
  | succ n ih =>
    intro cur hs
    rw [nextAvailAux_succ_eq]
    by_cases h0 : isAvailable cur insp vacs custom = true
    · rwa [if_pos h0]
    · rw [if_neg h0]
      exact ih (cur + 1) (by omega)

theorem nextAvailableDate_ge (s : Nat) (insp : String) (vacs : List Vacation)
    (custom : List Nat) : s ≤ nextAvailableDate s insp vacs custom :=
  nextAvailAux_ge insp vacs custom s 365 s le_rfl

theorem nextAvailableDate_found (s : Nat) (insp : String)
    (vacs : List Vacation) (custom : List Nat)
    (h : ∃ k, k < 365 ∧ isAvailable (s + k) insp vacs custom = true) :
    isAvailable (nextAvailableDate s insp vacs custom) insp vacs custom = true :=
  nextAvailAux_found insp vacs custom s 365 s h

theorem nextAvailableDate_good (s : Nat) (insp : String)
    (vacs : List Vacation) (custom : List Nat) :
    isAvailable (nextAvailableDate s insp vacs custom) insp vacs custom = true ∨
      (nextAvailableDate s insp vacs custom = s ∧
        ∀ k, k < 365 → isAvailable (s + k) insp vacs custom = false) := by
  by_cases h : ∃ k, k < 365 ∧ isAvailable (s + k) insp vacs custom = true
  · exact Or.inl (nextAvailableDate_found s insp vacs custom h)
  · push_neg at h
    have hall : ∀ k, k < 365 → isAvailable (s + k) insp vacs custom = false := by
      intro k hk
      simpa using h k hk
    exact Or.inr ⟨nextAvailAux_exhausted insp vacs custom s 365 s hall, hall⟩

theorem weekday_succ (d : Nat) : weekday (d + 1) = (weekday d + 1) % 7 := by
  unfold weekday
  omega

theorem isAvailable_weekend (d : Nat) (insp : String) (vacs : List Vacation)
    (custom : List Nat) (h : 5 ≤ weekday d) :
    isAvailable d insp vacs custom = false := by
  simp [isAvailable, isWeekend, h]

theorem nextAvailableDate_saturday (s : Nat) (insp : String)
    (vacs : List Vacation) (custom : List Nat) (hsat : weekday s = 5)
    (hmon : isAvailable (s + 2) insp vacs custom = true) :
    nextAvailableDate s insp vacs custom = s + 2 := by
  have hs0 : isAvailable s insp vacs custom = false :=
    isAvailable_weekend s insp vacs custom (by omega)
  have hw1 : weekday (s + 1) = 6 := by
    rw [weekday_succ, hsat]
  have hs1 : isAvailable (s + 1) insp vacs custom = false :=
    isAvailable_weekend (s + 1) insp vacs custom (by omega)
  unfold nextAvailableDate
  rw [show (365 : Nat) = 364 + 1 from rfl, nextAvailAux_succ_eq,
    if_neg (by simp [hs0])]
  rw [show (364 : Nat) = 363 + 1 from rfl, nextAvailAux_succ_eq,
    if_neg (by simp [hs1])]
  rw [show (363 : Nat) = 362 + 1 from rfl, nextAvailAux_succ_eq]
  rw [if_pos (show isAvailable (s + 1 + 1) insp vacs custom = true from hmon)]

theorem scheduleGo_cons_over (insp : String) (vacs : List Vacation)
    (c : TourStop) (rest : List TourStop) (cur : Nat) (daily : ℚ)
    (h : dayBudget cur < daily + requiredHours c) :
    scheduleGo insp vacs (c :: rest) cur daily =
      (c, nextAvailableDate (cur + 1) insp vacs []) ::
        scheduleGo insp vacs rest (nextAvailableDate (cur + 1) insp vacs [])
          (requiredHours c) := by
  simp only [scheduleGo]
  rw [if_pos h]

theorem scheduleGo_cons_fits (insp : String) (vacs : List Vacation)
    (c : TourStop) (rest : List TourStop) (cur : Nat) (daily : ℚ)
    (h : ¬ dayBudget cur < daily + requiredHours c) :
    scheduleGo insp vacs (c :: rest) cur daily =
      (c, cur) :: scheduleGo insp vacs rest cur (daily + requiredHours c) := by
  simp only [scheduleGo]
  rw [if_neg h]

theorem scheduleGo_dates_ge (insp : String) (vacs : List Vacation) :
    ∀ (clients : List TourStop) (cur : Nat) (daily : ℚ),
      ∀ p ∈ scheduleGo insp vacs clients cur daily, cur ≤ p.2 := by
  intro clients
  induction clients with
  | nil => intro cur daily p hp; simp [scheduleGo] at hp
  | cons c rest ih =>
    intro cur daily p hp
    by_cases hover : dayBudget cur < daily + requiredHours c
    · rw [scheduleGo_cons_over insp vacs c rest cur daily hover] at hp
      have hcur' : cur + 1 ≤ nextAvailableDate (cur + 1) insp vacs [] :=
        nextAvailableDate_ge (cur + 1) insp vacs []
      rcases List.mem_cons.mp hp with rfl | hp'
      · exact Nat.le_of_succ_le hcur'
      · have := ih _ _ p hp'
        omega
    · rw [scheduleGo_cons_fits insp vacs c rest cur daily hover] at hp
      rcases List.mem_cons.mp hp with rfl | hp'
      · exact le_rfl
      · exact ih _ _ p hp'

theorem dayBudget_pos (d : Nat) : (0 : ℚ) < dayBudget d := by
  unfold dayBudget maxHoursFriday maxHoursPerDay
  split <;> norm_num

theorem dayVisits_cons_eq (c : TourStop) (d : Nat) (l : List (TourStop × Nat)) :
    dayVisits ((c, d) :: l) d = (c, d) :: dayVisits l d := by
  simp [dayVisits]

theorem dayVisits_cons_ne (c : TourStop) (x d : Nat) (l : List (TourStop × Nat))
    (h : x ≠ d) : dayVisits ((c, x) :: l) d = dayVisits l d := by
  simp [dayVisits, h]

theorem dayVisits_eq_nil (l : List (TourStop × Nat)) (d : Nat)
    (h : ∀ p ∈ l, p.2 ≠ d) : dayVisits l d = [] := by
  rw [dayVisits, List.filter_eq_nil_iff]
  intro p hp
  simpa using h p hp

theorem daySum_cons_eq (c : TourStop) (d : Nat) (l : List (TourStop × Nat)) :
    daySum ((c, d) :: l) d = requiredHours c + daySum l d := by
  simp [daySum, dayVisits_cons_eq]

theorem daySum_cons_ne (c : TourStop) (x d : Nat) (l : List (TourStop × Nat))
    (h : x ≠ d) : daySum ((c, x) :: l) d = daySum l d := by
  simp [daySum, dayVisits_cons_ne c x d l h]

theorem daySum_of_nil_visits (l : List (TourStop × Nat)) (d : Nat)
    (h : dayVisits l d = []) : daySum l d = 0 := by
  simp [daySum, h]

theorem BudgetOK_cons_ne (c : TourStop) (x d : Nat) (l : List (TourStop × Nat))
    (h : x ≠ d) : BudgetOK ((c, x) :: l) d ↔ BudgetOK l d := by
  unfold BudgetOK
  rw [daySum_cons_ne c x d l h, dayVisits_cons_ne c x d l h]

theorem BudgetOK_of_nil_visits (l : List (TourStop × Nat)) (d : Nat)
    (h : dayVisits l d = []) : BudgetOK l d :=
  Or.inl (by rw [daySum_of_nil_visits l d h]; exact le_of_lt (dayBudget_pos d))

theorem scheduleGo_budget (insp : String) (vacs : List Vacation) :
    ∀ (clients : List TourStop) (cur : Nat) (daily : ℚ),
      (∀ d, cur < d → BudgetOK (scheduleGo insp vacs clients cur daily) d) ∧
      (daily + daySum (scheduleGo insp vacs clients cur daily) cur ≤ dayBudget cur ∨
        dayVisits (scheduleGo insp vacs clients cur daily) cur = []) := by
  intro clients
  induction clients with
  | nil =>
    intro cur daily
    constructor
    · intro d _
      exact BudgetOK_of_nil_visits _ d (by simp [dayVisits, scheduleGo])
    · exact Or.inr (by simp [dayVisits, scheduleGo])
  | cons c rest ih =>
    intro cur daily
    by_cases hover : dayBudget cur < daily + requiredHours c
    · have hstep := scheduleGo_cons_over insp vacs c rest cur daily hover
      have hgt : cur < nextAvailableDate (cur + 1) insp vacs [] :=
        Nat.lt_of_succ_le (nextAvailableDate_ge (cur + 1) insp vacs [])
      obtain ⟨ih1, ih2⟩ := ih (nextAvailableDate (cur + 1) insp vacs [])
        (requiredHours c)
      constructor
      · intro d hd
        rw [hstep]
        rcases Nat.lt_trichotomy d (nextAvailableDate (cur + 1) insp vacs []) with
          hlt | heq | hgt2
        · -- d below the advanced date: no visit lands on d
          apply BudgetOK_of_nil_visits
          apply dayVisits_eq_nil
          intro p hp
          rcases List.mem_cons.mp hp with rfl | hp'
          · omega
          · have := scheduleGo_dates_ge insp vacs rest _ _ p hp'
            omega
        · rw [← heq] at ih2 ⊢
          rcases ih2 with hsum | hnil
          · exact Or.inl (by rw [daySum_cons_eq]; exact hsum)
          · by_cases hcb : requiredHours c ≤ dayBudget d
            · refine Or.inl ?_
              rw [daySum_cons_eq, daySum_of_nil_visits _ _ hnil, add_zero]
              exact hcb
            · refine Or.inr ⟨c, ?_, lt_of_not_le hcb⟩
              rw [dayVisits_cons_eq, hnil]
        · rw [BudgetOK_cons_ne c _ d _ (by omega)]
          exact ih1 d hgt2
      · rw [hstep]
        refine Or.inr ?_
        apply dayVisits_eq_nil
        intro p hp
        rcases List.mem_cons.mp hp with rfl | hp'
        · omega
        · have := scheduleGo_dates_ge insp vacs rest _ _ p hp'
          omega
    · have hstep := scheduleGo_cons_fits insp vacs c rest cur daily hover
      obtain ⟨ih1, ih2⟩ := ih cur (daily + requiredHours c)
      constructor
      · intro d hd
        rw [hstep, BudgetOK_cons_ne c cur d _ (by omega)]
        exact ih1 d hd
      · rw [hstep]
        refine Or.inl ?_
        rw [daySum_cons_eq]
        rcases ih2 with hsum | hnil
        · linarith
        · rw [daySum_of_nil_visits _ _ hnil, add_zero]
          linarith [not_lt.mp hover]

theorem scheduleGo_map_fst (insp : String) (vacs : List Vacation) :
    ∀ (clients : List TourStop) (cur : Nat) (daily : ℚ),
      (scheduleGo insp vacs clients cur daily).map Prod.fst = clients := by
  intro clients
  induction clients with
  | nil => intro cur daily; rfl
  | cons c rest ih =>
    intro cur daily
    by_cases hover : dayBudget cur < daily + requiredHours c
    · rw [scheduleGo_cons_over insp vacs c rest cur daily hover]
      simp [ih]
    · rw [scheduleGo_cons_fits insp vacs c rest cur daily hover]
      simp [ih]

theorem scheduleGo_dates_avail (insp : String) (vacs : List Vacation) :
    ∀ (clients : List TourStop) (cur : Nat) (daily : ℚ),
      (isAvailable cur insp vacs [] = true ∨
        ∀ k, k < 365 → isAvailable (cur + k) insp vacs [] = false) →
      ∀ p ∈ scheduleGo insp vacs clients cur daily,
        isAvailable p.2 insp vacs [] = true ∨
          ∀ k, k < 365 → isAvailable (p.2 + k) insp vacs [] = false := by
  intro clients
  induction clients with
  | nil => intro cur daily _ p hp; simp [scheduleGo] at hp
  | cons c rest ih =>
    intro cur daily hcur p hp
    by_cases hover : dayBudget cur < daily + requiredHours c
    · rw [scheduleGo_cons_over insp vacs c rest cur daily hover] at hp
      have hnext : isAvailable (nextAvailableDate (cur + 1) insp vacs [])
            insp vacs [] = true ∨
          ∀ k, k < 365 →
            isAvailable (nextAvailableDate (cur + 1) insp vacs [] + k)
              insp vacs [] = false := by
        rcases nextAvailableDate_good (cur + 1) insp vacs [] with h | ⟨heq, hall⟩
        · exact Or.inl h
        · rw [heq]
          exact Or.inr hall
      rcases List.mem_cons.mp hp with rfl | hp'
      · exact hnext
      · exact ih _ _ hnext p hp'
    · rw [scheduleGo_cons_fits insp vacs c rest cur daily hover] at hp
      rcases List.mem_cons.mp hp with rfl | hp'
      · exact hcur
      · exact ih _ _ hcur p hp'

/-! ## Claim C2 — daily hours budget -/

/-- C2 counterexample: starting from Thursday 2026-03-05 with a 1-hour
visit and a 6.5-hour visit (no travel), the second visit overflows
Thursday, is moved to Friday 2026-03-06, and Friday then accumulates
7 hours — above its 6.5-hour budget — although neither visit's own
required hours exceed the full-day 8-hour budget; so the claimed
invariant fails as stated. -/
theorem claim_C2_counterexample :
    dayBudget (daysFromCivil 2026 3 6) <
      daySum (scheduleDaily [⟨1, 0⟩, ⟨13/2, 0⟩] "Adrian"
        (daysFromCivil 2026 3 5) []) (daysFromCivil 2026 3 6) ∧
    ∀ p ∈ scheduleDaily [⟨1, 0⟩, ⟨13/2, 0⟩] "Adrian"
        (daysFromCivil 2026 3 5) [],
      ¬ (p.2 = daysFromCivil 2026 3 6 ∧ maxHoursPerDay < requiredHours p.1) := by
  rw [show daysFromCivil 2026 3 5 = 20517 from rfl,
    show daysFromCivil 2026 3 6 = 20518 from rfl]
  have h0 : nextAvailableDate 20517 "Adrian" [] [] = 20517 := by decide
  have h1 : nextAvailableDate 20518 "Adrian" [] [] = 20518 := by decide
  have hb7 : dayBudget 20517 = 8 := by norm_num [dayBudget, weekday, maxHoursPerDay]
  have hb8 : dayBudget 20518 = 13 / 2 := by
    norm_num [dayBudget, weekday, maxHoursFriday]
  have hr1 : requiredHours ⟨1, 0⟩ = 3 / 2 := by
    norm_num [requiredHours, calculateTravelTime, bufferHoursPerVisit,
      averageSpeedKmh]
  have hr2 : requiredHours ⟨13/2, 0⟩ = 7 := by
    norm_num [requiredHours, calculateTravelTime, bufferHoursPerVisit,
      averageSpeedKmh]
  have hs : scheduleDaily [⟨1, 0⟩, ⟨13/2, 0⟩] "Adrian" 20517 [] =
      [(⟨1, 0⟩, 20517), (⟨13/2, 0⟩, 20518)] := by
    unfold scheduleDaily
    rw [h0, scheduleGo_cons_fits "Adrian" [] ⟨1, 0⟩ _ 20517 0
      (by rw [hb7, hr1]; norm_num)]
    rw [scheduleGo_cons_over "Adrian" [] ⟨13/2, 0⟩ _ 20517 _
      (by rw [hb7, hr1, hr2]; norm_num), h1]
    rfl
  rw [hs]
  constructor
  · rw [hb8, show daySum [(⟨1, 0⟩, 20517), (⟨13/2, 0⟩, 20518)] 20518 =
      requiredHours ⟨13/2, 0⟩ from by simp [daySum, dayVisits], hr2]
    norm_num
  · intro p hp
    rcases List.mem_cons.mp hp with rfl | hp'
    · rintro ⟨h2, _⟩
      exact absurd h2 (by decide)
    · rcases List.mem_cons.mp hp' with rfl | hp''
      · rintro ⟨_, h3⟩
        rw [hr2] at h3
        norm_num [maxHoursPerDay] at h3
      · simp at hp''

/-- C2 (amended): on every calendar date of a schedule, the accumulated
required hours (task + buffer + travel) stay within that date's budget
(6.5 hours on a Friday, 8 hours otherwise), except that a date may carry
exactly one visit whose own required hours exceed that date's budget (an
overflowing visit placed alone on a fresh day — the budget it was checked
against was the previous day's, so a 6.5–8 hour visit overflowing onto a
Friday also lands here, not only visits above the 8-hour full-day
budget). -/
theorem claim_C2_amended_budget (clients : List TourStop) (inspector : String)
    (startDate : Nat) (vacs : List Vacation) (d : Nat) :
    BudgetOK (scheduleDaily clients inspector startDate vacs) d := by
  unfold scheduleDaily
  obtain ⟨h1, h2⟩ := scheduleGo_budget inspector vacs clients
    (nextAvailableDate startDate inspector vacs []) 0
  rcases Nat.lt_trichotomy d (nextAvailableDate startDate inspector vacs [])
    with hlt | heq | hgt
  · apply BudgetOK_of_nil_visits
    apply dayVisits_eq_nil
    intro p hp
    have := scheduleGo_dates_ge inspector vacs clients _ 0 p hp
    omega
  · rw [heq]
    rcases h2 with hs | hn
    · rw [zero_add] at hs
      exact Or.inl hs
    · exact BudgetOK_of_nil_visits _ _ hn
  · exact h1 d hgt

/-! ## Claim C3 — oversized single visits -/

/-- C3 counterexample: a single visit of 9 task hours (9.5 required
hours — above the 8-hour budget of any day) starting on the available
Monday 2026-03-02 is NOT kept on the current day: the scheduler advances
and assigns it to Tuesday 2026-03-03, although Monday itself was free
(the third conjunct); the visit is accepted, but its date does move. -/
theorem claim_C3_counterexample :
    scheduleDaily [⟨9, 0⟩] "Adrian" (daysFromCivil 2026 3 2) [] =
      [(⟨9, 0⟩, daysFromCivil 2026 3 3)] ∧
    daysFromCivil 2026 3 3 ≠ daysFromCivil 2026 3 2 ∧
    nextAvailableDate (daysFromCivil 2026 3 2) "Adrian" [] [] =
      daysFromCivil 2026 3 2 := by
  rw [show daysFromCivil 2026 3 2 = 20514 from rfl,
    show daysFromCivil 2026 3 3 = 20515 from rfl]
  have h0 : nextAvailableDate 20514 "Adrian" [] [] = 20514 := by decide
  have h1 : nextAvailableDate 20515 "Adrian" [] [] = 20515 := by decide
  have hr : requiredHours ⟨9, 0⟩ = 19 / 2 := by
    norm_num [requiredHours, calculateTravelTime, bufferHoursPerVisit,
      averageSpeedKmh]
  have hb : dayBudget 20514 = 8 := by norm_num [dayBudget, weekday, maxHoursPerDay]
  refine ⟨?_, by decide, h0⟩
  unfold scheduleDaily
  rw [h0, scheduleGo_cons_over "Adrian" [] ⟨9, 0⟩ [] 20514 0
    (by rw [hb, hr]; norm_num), h1]
  rfl

/-- C3 (amended): every visit is accepted and scheduled — the output is
the input tour in order, nothing is rejected — but a visit whose required
hours exceed the current day's budget (in particular an oversized visit
exceeding every day's budget) triggers exactly one advance: the scheduler
moves once to the next available date, resets the accumulator, and assigns
the visit to that date unconditionally. -/
theorem claim_C3_amended_oversized (inspector : String) (vacs : List Vacation) :
    (∀ (clients : List TourStop) (startDate : Nat),
      (scheduleDaily clients inspector startDate vacs).map Prod.fst = clients) ∧
    (∀ (c : TourStop) (rest : List TourStop) (cur : Nat) (daily : ℚ),
      0 ≤ daily → dayBudget cur < requiredHours c →
      scheduleGo inspector vacs (c :: rest) cur daily =
        (c, nextAvailableDate (cur + 1) inspector vacs []) ::
          scheduleGo inspector vacs rest
            (nextAvailableDate (cur + 1) inspector vacs [])
            (requiredHours c)) := by
  constructor
  · intro clients startDate
    unfold scheduleDaily
    exact scheduleGo_map_fst inspector vacs clients _ 0
  · intro c rest cur daily h0 hov
    exact scheduleGo_cons_over inspector vacs c rest cur daily (by linarith)

/-- Witness for the amended C3: the 9.5-required-hour visit of the
counterexample is accepted (output tour equals input) and advances exactly
once, from Monday 2026-03-02 to the next available date. -/
theorem claim_C3_amended_oversized_witness :
    ((scheduleDaily [⟨9, 0⟩] "Adrian" (daysFromCivil 2026 3 2) []).map
      Prod.fst = [⟨9, 0⟩]) ∧
    scheduleGo "Adrian" [] [⟨9, 0⟩] 20514 0 =
      (⟨9, 0⟩, nextAvailableDate (20514 + 1) "Adrian" [] []) ::
        scheduleGo "Adrian" [] [] (nextAvailableDate (20514 + 1) "Adrian" [] [])
          (requiredHours ⟨9, 0⟩) := by
  constructor
  · exact (claim_C3_amended_oversized "Adrian" []).1 [⟨9, 0⟩]
      (daysFromCivil 2026 3 2)
  · exact (claim_C3_amended_oversized "Adrian" []).2 ⟨9, 0⟩ [] 20514 0 le_rfl
      (by norm_num [dayBudget, weekday, maxHoursPerDay, requiredHours,
        calculateTravelTime, bufferHoursPerVisit, averageSpeedKmh])

/-! ## Claim C5 — weekends, holidays and the Saturday rule -/

/-- C5 counterexample: from Saturday 2026-04-04 the next available date is
NOT the following Monday — 2026-04-06 is Easter Monday, a configured
holiday, so the search returns Tuesday 2026-04-07; the claim's
Saturday-to-Monday clause fails as universally stated. -/
theorem claim_C5_counterexample :
    weekday (daysFromCivil 2026 4 4) = 5 ∧
    daysFromCivil 2026 4 4 + 2 = daysFromCivil 2026 4 6 ∧
    isHoliday (daysFromCivil 2026 4 6) [] = true ∧
    nextAvailableDate (daysFromCivil 2026 4 4) "Adrian" [] [] ≠
      daysFromCivil 2026 4 6 ∧
    nextAvailableDate (daysFromCivil 2026 4 4) "Adrian" [] [] =
      daysFromCivil 2026 4 7 := by
  decide

/-- C5 (amended): (1) whenever some date in the 365-day search window is
available, `next_available_date` returns an available date — never a
Saturday, Sunday, holiday or vacation day; (2) from a Saturday whose
following Monday is available, it returns exactly that Monday; (3) every
date the day scheduler assigns is either available (not a weekend, not a
holiday, not a vacation day) or is the degraded 365-day fallback — a date
from which no available date exists within 365 days. -/
theorem claim_C5_amended_calendar :
    (∀ (start : Nat) (insp : String) (vacs : List Vacation)
      (custom : List Nat),
      (∃ k, k < 365 ∧ isAvailable (start + k) insp vacs custom = true) →
      isAvailable (nextAvailableDate start insp vacs custom)
        insp vacs custom = true) ∧
    (∀ (start : Nat) (insp : String) (vacs : List Vacation)
      (custom : List Nat),
      weekday start = 5 → isAvailable (start + 2) insp vacs custom = true →
      nextAvailableDate start insp vacs custom = start + 2) ∧
    (∀ (clients : List TourStop) (insp : String) (startDate : Nat)
      (vacs : List Vacation),
      ∀ p ∈ scheduleDaily clients insp startDate vacs,
        isAvailable p.2 insp vacs [] = true ∨
          ∀ k, k < 365 → isAvailable (p.2 + k) insp vacs [] = false) := by
  refine ⟨nextAvailableDate_found, nextAvailableDate_saturday, ?_⟩
  intro clients insp startDate vacs p hp
  unfold scheduleDaily at hp
  apply scheduleGo_dates_avail insp vacs clients _ 0 _ p hp
  rcases nextAvailableDate_good startDate insp vacs [] with h | ⟨heq, hall⟩
  · exact Or.inl h
  · rw [heq]
    exact Or.inr hall

/-- Witness for the amended C5: from Saturday 2025-12-13 the search finds
an available date, and it is exactly the following Monday 2025-12-15. -/
theorem claim_C5_amended_calendar_witness :
    isAvailable (nextAvailableDate (daysFromCivil 2025 12 13) "Adrian" [] [])
      "Adrian" [] [] = true ∧
    nextAvailableDate (daysFromCivil 2025 12 13) "Adrian" [] [] =
      daysFromCivil 2025 12 13 + 2 := by
  constructor
  · exact claim_C5_amended_calendar.1 (daysFromCivil 2025 12 13) "Adrian" [] []
      ⟨2, by decide, by decide⟩
  · exact claim_C5_amended_calendar.2.1 (daysFromCivil 2025 12 13) "Adrian"
      [] [] (by decide) (by decide)

/-! ## Claim C9 — renewal selector -/

theorem insertByGiorni_perm (r : RenewalRow) (l : List RenewalRow) :
    List.Perm (insertByGiorni r l) (r :: l) := by
  induction l with
  | nil => exact List.Perm.refl _
  | cons x rest ih =>
    unfold insertByGiorni
    by_cases h : x.giorniAScadenza ≤ r.giorniAScadenza
    · rw [if_pos h]
      exact (ih.cons x).trans (List.Perm.swap r x rest)
    · rw [if_neg h]

theorem sortByGiorni_perm (l : List RenewalRow) :
    List.Perm (sortByGiorni l) l := by
  induction l with
  | nil => exact List.Perm.refl _
  | cons r rest ih =>
    unfold sortByGiorni
    exact (insertByGiorni_perm r (sortByGiorni rest)).trans (ih.cons r)

theorem insertByGiorni_sorted (r : RenewalRow) (l : List RenewalRow)
    (h : List.Sorted
      (fun a b : RenewalRow => a.giorniAScadenza ≤ b.giorniAScadenza) l) :
    List.Sorted (fun a b : RenewalRow => a.giorniAScadenza ≤ b.giorniAScadenza)
      (insertByGiorni r l) := by
  induction l with
  | nil => simp [insertByGiorni]
  | cons x rest ih =>
    unfold insertByGiorni
    rcases List.sorted_cons.mp h with ⟨hx, hrest⟩
    by_cases hle : x.giorniAScadenza ≤ r.giorniAScadenza
    · rw [if_pos hle]
      apply List.sorted_cons.mpr
      refine ⟨?_, ih hrest⟩
      intro b hb
      have hb' : b ∈ r :: rest := ((insertByGiorni_perm r rest).mem_iff).mp hb
      rcases List.mem_cons.mp hb' with rfl | hb''
      · exact hle
      · exact hx b hb''
    · rw [if_neg hle]
      apply List.sorted_cons.mpr
      refine ⟨?_, h⟩
      intro b hb
      rcases List.mem_cons.mp hb with rfl | hb'
      · exact le_of_not_le hle
      · exact le_trans (le_of_not_le hle) (hx b hb')

theorem sortByGiorni_sorted (l : List RenewalRow) :
    List.Sorted (fun a b : RenewalRow => a.giorniAScadenza ≤ b.giorniAScadenza)
      (sortByGiorni l) := by
  induction l with
  | nil => simp [sortByGiorni]
  | cons r rest ih =>
    unfold sortByGiorni
    exact insertByGiorni_sorted r _ ih

theorem generateRenewalsList_mem (now : ℚ) (alertDays : ℕ)
    (anag : List AnagRow) (r : RenewalRow) :
    r ∈ generateRenewalsList now alertDays anag ↔
      ∃ a ∈ anag, ∃ d : ℚ, a.dataRif = some d ∧ now ≤ d ∧ d ≤ now + alertDays ∧
        r = mkRenewalRow now a d := by
  unfold generateRenewalsList
  rw [(sortByGiorni_perm _).mem_iff, List.mem_filterMap]
  constructor
  · rintro ⟨a, ha, hfa⟩
    cases hd : a.dataRif with
    | none => rw [hd] at hfa; simp at hfa
    | some d =>
      rw [hd] at hfa
      dsimp only at hfa
      by_cases hc : d ≤ now + alertDays ∧ now ≤ d
      · rw [if_pos hc] at hfa
        refine ⟨a, ha, d, hd, hc.2, hc.1, ?_⟩
        simpa using hfa.symm
      · rw [if_neg hc] at hfa
        simp at hfa
  · rintro ⟨a, ha, d, hd, h1, h2, rfl⟩
    refine ⟨a, ha, ?_⟩
    rw [hd]
    dsimp only
    rw [if_pos ⟨h2, h1⟩]

/-- C9 counterexample: run at noon of day 20000 (`now = 20000 + 1/2`), a
customer whose reference date is day 20000 — today's own calendar date,
squarely inside the inclusive window `[today, today + 90]` — is NOT
emitted: the code compares the midnight timestamp against the
`datetime.now()` instant, so the lower window bound is the invocation
instant, not the calendar day. -/
theorem claim_C9_counterexample :
    ((20000 : ℚ) ≤ 20000 + 1/2 ∧ (20000 : ℚ) + 1/2 < 20000 + 1) ∧
    generateRenewalsList (20000 + 1/2) 90 [⟨"C1", "N", some 20000⟩] = [] := by
  constructor
  · constructor <;> norm_num
  · simp [generateRenewalsList, sortByGiorni]

/-- C9 (amended): the renewal selector emits exactly the rows whose parsed
reference timestamp lies in `[now, now + w]` where `now` is the invocation
instant (so a record dated today is included only when invoked at
midnight); rows with an unparseable date are silently excluded; each
emitted row carries days-to-expiry equal to the floor of (date − now) and
empty contact-tracking fields; and the output is sorted ascending by
days-to-expiry. -/
theorem claim_C9_amended_renewals (now : ℚ) (alertDays : ℕ)
    (anag : List AnagRow) :
    List.Sorted (fun a b : RenewalRow => a.giorniAScadenza ≤ b.giorniAScadenza)
      (generateRenewalsList now alertDays anag) ∧
    (∀ r, r ∈ generateRenewalsList now alertDays anag ↔
      ∃ a ∈ anag, ∃ d : ℚ, a.dataRif = some d ∧ now ≤ d ∧ d ≤ now + alertDays ∧
        r = mkRenewalRow now a d) ∧
    (∀ r ∈ generateRenewalsList now alertDays anag,
      r.statoContatto = "" ∧ r.dataContatto = "" ∧ r.ordineRicevuto = "" ∧
        r.note = "") := by
  refine ⟨?_, generateRenewalsList_mem now alertDays anag, ?_⟩
  · unfold generateRenewalsList
    exact sortByGiorni_sorted _
  · intro r hr
    obtain ⟨a, _, d, _, _, _, rfl⟩ :=
      (generateRenewalsList_mem now alertDays anag r).mp hr
    exact ⟨rfl, rfl, rfl, rfl⟩

/-- Witness for the amended C9 at a concrete master table (one customer 60
days out, one unparseable date) and a 90-day window. -/
theorem claim_C9_amended_renewals_witness :
    List.Sorted (fun a b : RenewalRow => a.giorniAScadenza ≤ b.giorniAScadenza)
      (generateRenewalsList 100 90 [⟨"C1", "N", some 160⟩, ⟨"C2", "M", none⟩]) ∧
    (∀ r, r ∈ generateRenewalsList 100 90 [⟨"C1", "N", some 160⟩, ⟨"C2", "M", none⟩] ↔
      ∃ a ∈ ([⟨"C1", "N", some 160⟩, ⟨"C2", "M", none⟩] : List AnagRow),
        ∃ d : ℚ, a.dataRif = some d ∧ 100 ≤ d ∧ d ≤ 100 + (90 : ℕ) ∧
          r = mkRenewalRow 100 a d) ∧
    (∀ r ∈ generateRenewalsList 100 90 [⟨"C1", "N", some 160⟩, ⟨"C2", "M", none⟩],
      r.statoContatto = "" ∧ r.dataContatto = "" ∧ r.ordineRicevuto = "" ∧
        r.note = "") :=
  claim_C9_amended_renewals 100 90 [⟨"C1", "N", some 160⟩, ⟨"C2", "M", none⟩]

/-- Witness for the amended C2: in the Thursday-to-Friday overflow run of
the counterexample, Friday is within `BudgetOK` — it carries exactly one
visit whose required hours exceed Friday's own budget. -/
theorem claim_C2_amended_budget_witness :
    BudgetOK (scheduleDaily [⟨1, 0⟩, ⟨13/2, 0⟩] "Adrian"
      (daysFromCivil 2026 3 5) []) (daysFromCivil 2026 3 6) :=
  claim_C2_amended_budget [⟨1, 0⟩, ⟨13/2, 0⟩] "Adrian"
    (daysFromCivil 2026 3 5) [] (daysFromCivil 2026 3 6)
